import Mathlib

/-!
Shallow embedding of the framebuffer screen compositor
(`src/platformsupport/fbconvenience/qfbscreen.cpp`): window stacking,
damage-region accumulation, coalesced update scheduling and the redraw
algorithm, together with the geometry and image primitives they use.
Integer coordinates are modelled as `Int`; images are pixel maps.
-/

namespace QFb

/-- A point with integer coordinates, as `QPoint`. -/
structure QPoint where
  x : Int
  y : Int
deriving DecidableEq, Repr

/-- A rectangle given by top-left corner and size, as `QRect`
(`x2 = x + w - 1`, so the rectangle is empty when `w ≤ 0` or `h ≤ 0`). -/
structure QRect where
  x : Int
  y : Int
  w : Int
  h : Int
deriving DecidableEq, Repr

/-- `QRect::isEmpty()`: true when the width or height is non-positive. -/
def QRect.isEmptyRect (r : QRect) : Bool :=
  decide (r.w ≤ 0) || decide (r.h ≤ 0)

/-- `QRect::contains(p)` (boundary-inclusive, `proper = false`). -/
def QRect.containsB (r : QRect) (p : QPoint) : Bool :=
  decide (r.x ≤ p.x) && decide (p.x < r.x + r.w) &&
  decide (r.y ≤ p.y) && decide (p.y < r.y + r.h)

/-- `QRect::intersected(other)`: the intersection, empty (`⟨0,0,0,0⟩`)
when the rectangles do not overlap or either is empty. -/
def QRect.intersected (a b : QRect) : QRect :=
  if a.isEmptyRect || b.isEmptyRect then ⟨0, 0, 0, 0⟩
  else
    let l := max a.x b.x
    let t := max a.y b.y
    let rr := min (a.x + a.w) (b.x + b.w)
    let bb := min (a.y + a.h) (b.y + b.h)
    if l < rr ∧ t < bb then ⟨l, t, rr - l, bb - t⟩ else ⟨0, 0, 0, 0⟩

/-- `QRect::translated(dx, dy)`. -/
def QRect.translated (r : QRect) (dx dy : Int) : QRect :=
  ⟨r.x + dx, r.y + dy, r.w, r.h⟩

/-- `QRect::topLeft()`. -/
def QRect.topLeft (r : QRect) : QPoint :=
  ⟨r.x, r.y⟩

/-- A `QRegion`, represented by the list of rectangles whose union is the
region.  The screen code only ever builds regions by uniting rectangles and
regions, so a list of non-empty rectangles is a faithful representation of
the point set; `QRegion()` is the empty list. -/
abbrev QRegion := List QRect

/-- The empty region `QRegion()`. -/
def QRegion.emptyR : QRegion := []

/-- `QRegion::operator+=(QRect)`: unites a rectangle into the region
(an empty rectangle contributes nothing). -/
def QRegion.addRect (reg : QRegion) (r : QRect) : QRegion :=
  if r.isEmptyRect then reg else r :: reg

/-- `QRegion::operator+=(QRegion)`: set union of two regions. -/
def QRegion.unionR (a b : QRegion) : QRegion := a ++ b

/-- `QRegion::isEmpty()`.  The representation only ever holds non-empty
rectangles, so list emptiness coincides with point-set emptiness. -/
def QRegion.isEmptyR (reg : QRegion) : Bool := reg.isEmpty

/-- Membership of a point in the region's point set. -/
def QRegion.containsPt (reg : QRegion) (p : QPoint) : Bool :=
  reg.any (fun r => r.containsB p)

/-- `QRegion::intersects(QRect)`: the region meets the rectangle. -/
def QRegion.intersectsRect (reg : QRegion) (r : QRect) : Bool :=
  reg.any (fun rr => !(rr.intersected r).isEmptyRect)

/-- Pixel colors: fully transparent (`Qt::transparent`), opaque black
(`Qt::black`), or an arbitrary opaque color. -/
inductive Color where
  | transparent : Color
  | black : Color
  | rgb : Nat → Nat → Nat → Color
deriving DecidableEq, Repr

/-- A `QImage`: a size, whether the format has an alpha channel
(`hasAlphaChannel()`), and a pixel map. -/
structure QImage where
  width : Int
  height : Int
  hasAlpha : Bool
  pixel : QPoint → Color

/-- `QPainter::fillRect(rect, color)` in `CompositionMode_Source`:
every pixel of `rect` is replaced by `c`. -/
def QImage.fillRectSource (img : QImage) (r : QRect) (c : Color) : QImage :=
  { img with pixel := fun p => if r.containsB p then c else img.pixel p }

/-- `QPainter::drawImage(target, src, srcRect)` in `CompositionMode_Source`
where `srcRect` has the same size as `target` and its top-left corner is
`srcTopLeft`: pixels of `target` are replaced by the corresponding source
pixels; source coordinates falling outside the source image are clipped
away (those target pixels are left untouched). -/
def QImage.drawImageSource (dst : QImage) (target : QRect) (src : QImage)
    (srcTopLeft : QPoint) : QImage :=
  { dst with pixel := fun p =>
      if target.containsB p then
        let q : QPoint := ⟨p.x - target.x + srcTopLeft.x, p.y - target.y + srcTopLeft.y⟩
        if decide (0 ≤ q.x) && decide (q.x < src.width) &&
           decide (0 ≤ q.y) && decide (q.y < src.height) then
          src.pixel q
        else dst.pixel p
      else dst.pixel p }

/-- Source-over composition of a sprite (given in local coordinates of the
rectangle `r`) onto an image: transparent sprite pixels leave the
destination unchanged, other pixels replace it. -/
def QImage.drawSpriteOver (img : QImage) (r : QRect) (sprite : QPoint → Color) : QImage :=
  { img with pixel := fun p =>
      if r.containsB p then
        match sprite ⟨p.x - r.x, p.y - r.y⟩ with
        | Color.transparent => img.pixel p
        | c => c
      else img.pixel p }

/-- A `QFbBackingStore`: the pixel buffer of a window, identity-comparable
against the window's underlying `QWindow` (here by numeric id). -/
structure QFbBackingStore where
  storeWindowId : Nat
  image : QImage

/-- `window()->type()` classification, as far as the screen code inspects
it (`Qt::Window`, `Qt::Dialog`, anything else). -/
inductive WinType where
  | window : WinType
  | dialog : WinType
  | other : WinType
deriving DecidableEq, Repr

/-- A `QFbWindow` as seen by the screen: identity (`winId`, standing in for
the C++ object identity), screen-space geometry, the underlying window's
visibility, its type, and the attached backing store (possibly absent). -/
structure QFbWindow where
  winId : Nat
  geometry : QRect
  visible : Bool
  winType : WinType
  backingStore : Option QFbBackingStore

/-- Modelled from the spec: the cursor collaborator (`qfbcursor` is not part
of the sources here).  It exposes a dirty flag (`isDirty()`), an on-screen
flag (`isOnScreen()`), the previous paint rectangle it is about to vacate
(`dirtyRect()`), the last-painted rectangle (`lastPainted()`), and a draw
operation that composites a sprite source-over at `drawRect` and returns
the region it painted. -/
structure QFbCursor where
  dirty : Bool
  onScreen : Bool
  dirtyRect : QRect
  lastPainted : QRect
  drawRect : QRect
  sprite : QPoint → Color

/-- Modelled from the spec: `drawCursor(painter)` composites the cursor
sprite source-over at its current rectangle, records that rectangle as the
last-painted one, clears the dirty flag, marks the cursor on-screen, and
returns the rectangle it painted. -/
def drawCursor (c : QFbCursor) (img : QImage) : QImage × QRect × QFbCursor :=
  (img.drawSpriteOver c.drawRect c.sprite, c.drawRect,
   { c with dirty := false, lastPainted := c.drawRect, onScreen := true })

/-- The `QFbScreen` state: geometry, composited output image, window stack
(index 0 = topmost), accumulated damage region in screen-local coordinates
(`mRepaintRegion`), the update-pending flag, the optional cursor, the
pending-backing-store list, and the number of queued (posted, undelivered)
`UpdateRequest` events of the host event loop. -/
structure ScreenState where
  geometry : QRect
  screenImage : QImage
  windowStack : List QFbWindow
  repaintRegion : QRegion
  updatePending : Bool
  cursor : Option QFbCursor
  pendingBackingStores : List QFbBackingStore
  queuedUpdates : Nat

/-- `QFbScreen::scheduleUpdate()`: posts a single `UpdateRequest` event and
raises the pending flag, unless an update is already pending. -/
def scheduleUpdate (s : ScreenState) : ScreenState :=
  if s.updatePending then s
  else { s with updatePending := true, queuedUpdates := s.queuedUpdates + 1 }

/-- `QFbScreen::setDirty(rect)`: intersect with the screen geometry,
translate to screen-local coordinates, unite into `mRepaintRegion`, and
schedule an update. -/
def setDirty (r : QRect) (s : ScreenState) : ScreenState :=
  let intersection := r.intersected s.geometry
  let screenOffset := s.geometry.topLeft
  let reg := QRegion.addRect s.repaintRegion
    (intersection.translated (-screenOffset.x) (-screenOffset.y))
  scheduleUpdate { s with repaintRegion := reg }

/-- First index of the window with this identity, `QList::indexOf`
(`-1` when absent). -/
def indexOfId (id : Nat) : List QFbWindow → Int
  | [] => -1
  | w :: ws =>
      if w.winId == id then 0
      else if indexOfId id ws = -1 then -1 else indexOfId id ws + 1

/-- `QList::removeOne`: remove the first entry with this identity. -/
def removeOneById (id : Nat) : List QFbWindow → List QFbWindow
  | [] => []
  | w :: ws => if w.winId == id then ws else w :: removeOneById id ws

/-- `QList::move(i, 0)`: move the entry at index `i` to the front. -/
def moveToFront (i : Nat) (l : List QFbWindow) : List QFbWindow :=
  match l.get? i with
  | some x => x :: l.eraseIdx i
  | none => l

/-- `QList::move(i, size-1)`: move the entry at index `i` to the back. -/
def moveToBack (i : Nat) (l : List QFbWindow) : List QFbWindow :=
  match l.get? i with
  | some x => l.eraseIdx i ++ [x]
  | none => l

/-- `QFbScreen::addWindow(window)`: asserts the window has a backing store
(`Q_ASSERT`, modelled as `none` on violation), prepends it to the stack,
reconciles the first pending backing store registered for the same
underlying window (attaching it and removing it from the pending list),
damages the window's geometry and schedules an update. -/
def addWindow (w : QFbWindow) (s : ScreenState) : Option ScreenState :=
  if w.backingStore.isSome then
    let recon :=
      match s.pendingBackingStores.find? (fun bs => bs.storeWindowId == w.winId) with
      | some bs => { w with backingStore := some bs }
      | none => w
    some (setDirty w.geometry
      { s with windowStack := recon :: s.windowStack,
               pendingBackingStores :=
                 s.pendingBackingStores.eraseP (fun bs => bs.storeWindowId == w.winId) })
  else none

/-- `QFbScreen::removeWindow(window)`: remove the first matching entry and
damage the window's geometry. -/
def removeWindow (w : QFbWindow) (s : ScreenState) : ScreenState :=
  setDirty w.geometry { s with windowStack := removeOneById w.winId s.windowStack }

/-- `QFbScreen::raise(window)`: no-op when the window is topmost
(index 0) or absent (index -1); otherwise move it to the front and damage
its geometry. -/
def raise (w : QFbWindow) (s : ScreenState) : ScreenState :=
  let index := indexOfId w.winId s.windowStack
  if index ≤ 0 then s
  else setDirty w.geometry
    { s with windowStack := moveToFront index.toNat s.windowStack }

/-- `QFbScreen::lower(window)`: no-op when the window is absent or already
at the last index; otherwise move it to the back and damage its
geometry. -/
def lower (w : QFbWindow) (s : ScreenState) : ScreenState :=
  let index := indexOfId w.winId s.windowStack
  if index = -1 ∨ index = (s.windowStack.length : Int) - 1 then s
  else setDirty w.geometry
    { s with windowStack := moveToBack index.toNat s.windowStack }

/-- The damage region at the start of `doRedraw` after step one: when a
cursor exists, is dirty and is on-screen, its previous paint rectangle
(`dirtyRect()`) is united into `mRepaintRegion`. -/
def augmentedRegion (s : ScreenState) : QRegion :=
  match s.cursor with
  | some c =>
      if c.dirty && c.onScreen then QRegion.addRect s.repaintRegion c.dirtyRect
      else s.repaintRegion
  | none => s.repaintRegion

/-- One window layer of the redraw loop body: skip invisible windows,
translate the damaged rectangle into window-local coordinates, and copy the
backing-store image (windows without a backing store are skipped). -/
def compositeWindow (screenOffset : QPoint) (rect : QRect) (img : QImage)
    (w : QFbWindow) : QImage :=
  if w.visible then
    let windowRect := w.geometry.translated (-screenOffset.x) (-screenOffset.y)
    match w.backingStore with
    | some bs =>
        img.drawImageSource rect bs.image ⟨rect.x - windowRect.x, rect.y - windowRect.y⟩
    | none => img
  else img

/-- Whether a window can contribute pixels to a damaged rectangle: it is
visible and its screen-local geometry meets the rectangle. -/
def contributes (screenOffset : QPoint) (rect : QRect) (w : QFbWindow) : Bool :=
  w.visible &&
    !((w.geometry.translated (-screenOffset.x) (-screenOffset.y)).intersected
        rect).isEmptyRect

/-- Painting one damaged rectangle: fill the background in source mode
(transparent when the output image has an alpha channel, otherwise opaque
black), then composite the window stack back-to-front (from the last stack
index down to index 0). -/
def paintRect (screenOffset : QPoint) (stack : List QFbWindow) (img : QImage)
    (rect : QRect) : QImage :=
  let bg := if img.hasAlpha then Color.transparent else Color.black
  let filled := img.fillRectSource rect bg
  stack.reverse.foldl (compositeWindow screenOffset rect) filled

/-- The rectangle loop of `doRedraw`: each rectangle of the damage region
is clipped to the screen-local bounds, skipped when empty, and painted. -/
def paintRegion (screenOffset : QPoint) (screenRect : QRect)
    (stack : List QFbWindow) (img : QImage) (rects : QRegion) : QImage :=
  rects.foldl
    (fun im r =>
      let rc := r.intersected screenRect
      if rc.isEmptyRect then im else paintRect screenOffset stack im rc)
    img

/-- `QFbScreen::doRedraw()`, returning the touched region, the new state,
and whether the cursor was composited.  Mirrors the source: augment the
damage region with the cursor's vacated rectangle, take the early exit when
the region is empty and the cursor is not dirty, otherwise paint every
damaged rectangle, composite the cursor when it is dirty or the damage
region intersects its last-painted rectangle, unite the damage region into
the touched region and reset it. -/
def doRedrawCore (s : ScreenState) : QRegion × ScreenState × Bool :=
  let region := augmentedRegion s
  let noDirtyCursor : Bool :=
    match s.cursor with
    | some c => !c.dirty
    | none => true
  if QRegion.isEmptyR region && noDirtyCursor then
    (QRegion.emptyR, { s with repaintRegion := region }, false)
  else
    let screenOffset := s.geometry.topLeft
    let screenRect := s.geometry.translated (-screenOffset.x) (-screenOffset.y)
    let img1 := paintRegion screenOffset screenRect s.windowStack s.screenImage region
    match s.cursor with
    | some c =>
        if c.dirty || QRegion.intersectsRect region c.lastPainted then
          let d := drawCursor c img1
          (QRegion.unionR (QRegion.addRect QRegion.emptyR d.2.1) region,
           { s with screenImage := d.1, cursor := some d.2.2,
                    repaintRegion := QRegion.emptyR },
           true)
        else
          (QRegion.unionR QRegion.emptyR region,
           { s with screenImage := img1, repaintRegion := QRegion.emptyR }, false)
    | none =>
        (QRegion.unionR QRegion.emptyR region,
         { s with screenImage := img1, repaintRegion := QRegion.emptyR }, false)

/-- `QFbScreen::doRedraw()`: touched region and resulting state. -/
def doRedraw (s : ScreenState) : QRegion × ScreenState :=
  ((doRedrawCore s).1, (doRedrawCore s).2.1)

/-- `QFbScreen::event(UpdateRequest)`: consume one queued update event,
run `doRedraw`, then clear the pending flag (unconditionally, whatever the
touched region was). -/
def handleUpdateEvent (s : ScreenState) : QRegion × ScreenState :=
  let r := doRedraw { s with queuedUpdates := s.queuedUpdates - 1 }
  (r.1, { r.2 with updatePending := false })

/-- The operations a client or the host event loop can perform on the
screen: damage notification, explicit scheduling, delivery of a queued
update event, and the four stack operations. -/
inductive ScreenOp where
  | dirty : QRect → ScreenOp
  | schedule : ScreenOp
  | deliver : ScreenOp
  | addW : QFbWindow → ScreenOp
  | removeW : QFbWindow → ScreenOp
  | raiseW : QFbWindow → ScreenOp
  | lowerW : QFbWindow → ScreenOp

/-- Execute one operation.  Delivering an update event is only possible
when one is actually queued; an `addWindow` whose assertion fails leaves
the state unchanged. -/
def execOp (s : ScreenState) : ScreenOp → ScreenState
  | ScreenOp.dirty r => setDirty r s
  | ScreenOp.schedule => scheduleUpdate s
  | ScreenOp.deliver => if 0 < s.queuedUpdates then (handleUpdateEvent s).2 else s
  | ScreenOp.addW w => (addWindow w s).getD s
  | ScreenOp.removeW w => removeWindow w s
  | ScreenOp.raiseW w => raise w s
  | ScreenOp.lowerW w => lower w s

/-- Execute a sequence of operations from left to right. -/
def execOps (ops : List ScreenOp) (s : ScreenState) : ScreenState :=
  ops.foldl execOp s

/-- Number of `addWindow` operations in a sequence. -/
def addsCount : List ScreenOp → Nat
  | [] => 0
  | ScreenOp.addW _ :: rest => addsCount rest + 1
  | _ :: rest => addsCount rest

/-- Whether the stack holds a window with this identity. -/
def containsId (id : Nat) (l : List QFbWindow) : Bool :=
  l.any (fun w => w.winId == id)

/-- Number of successful `removeWindow` operations along a run: a removal
succeeds when the window is in the stack at that moment. -/
def removesCount : List ScreenOp → ScreenState → Nat
  | [], _ => 0
  | op :: rest, s =>
      (match op with
       | ScreenOp.removeW w => if containsId w.winId s.windowStack then 1 else 0
       | _ => 0) + removesCount rest (execOp s op)

/-- The scheduling invariant: the number of queued update events is one
when an update is pending and zero otherwise. -/
def updateInv (s : ScreenState) : Prop :=
  s.queuedUpdates = if s.updatePending then 1 else 0

/-! ### Concrete instances used to exercise the operations -/

/-- An image of one solid color. -/
def solidImage (alpha : Bool) (wd ht : Int) (c : Color) : QImage :=
  ⟨wd, ht, alpha, fun _ => c⟩

/-- A 100×100 opaque black image. -/
def blackImage : QImage := solidImage false 100 100 Color.black

/-- A backing store with the given underlying-window identity. -/
def probeStore (id : Nat) : QFbBackingStore := ⟨id, blackImage⟩

/-- A visible normal window with the given identity and geometry. -/
def probeWindow (id : Nat) (g : QRect) : QFbWindow :=
  { winId := id, geometry := g, visible := true, winType := WinType.window,
    backingStore := some (probeStore id) }

/-- A quiescent 100×100 screen with an empty stack. -/
def probeState : ScreenState :=
  { geometry := ⟨0, 0, 100, 100⟩, screenImage := blackImage, windowStack := [],
    repaintRegion := QRegion.emptyR, updatePending := false, cursor := none,
    pendingBackingStores := [], queuedUpdates := 0 }

/-- A dirty on-screen cursor. -/
def probeCursor : QFbCursor :=
  { dirty := true, onScreen := true, dirtyRect := ⟨0, 0, 5, 5⟩,
    lastPainted := ⟨0, 0, 5, 5⟩, drawRect := ⟨2, 2, 5, 5⟩,
    sprite := fun _ => Color.black }

/-- The quiescent screen with the dirty cursor attached. -/
def probeCursorState : ScreenState := { probeState with cursor := some probeCursor }

/-- The screen with two stacked windows. -/
def stackState : ScreenState :=
  { probeState with
      windowStack := [probeWindow 1 ⟨0, 0, 10, 10⟩, probeWindow 2 ⟨5, 5, 10, 10⟩] }

/-- The quiescent screen with one pending backing store registered for the
underlying window with id 3. -/
def pendState : ScreenState :=
  { probeState with pendingBackingStores := [probeStore 3] }

/-- The single visible window of the composition scenario: geometry
`(10,10,50,50)`, backing store a solid color `c`. -/
def scenarioWindow (c : Color) : QFbWindow :=
  { winId := 1, geometry := ⟨10, 10, 50, 50⟩, visible := true, winType := WinType.window,
    backingStore := some ⟨1, solidImage false 50 50 c⟩ }

/-- The composition scenario: screen geometry `(0,0,100,100)`, output image
with alpha support `alpha` and arbitrary current pixels `base`, one visible
window at `(10,10,50,50)` whose backing store is solid color `c`. -/
def scenarioState (alpha : Bool) (base : QPoint → Color) (c : Color) : ScreenState :=
  { geometry := ⟨0, 0, 100, 100⟩, screenImage := ⟨100, 100, alpha, base⟩,
    windowStack := [scenarioWindow c], repaintRegion := QRegion.emptyR,
    updatePending := false, cursor := none, pendingBackingStores := [],
    queuedUpdates := 0 }

/-! ### Basic lemmas about rectangles and regions -/

theorem QRect.containsB_of_empty {r : QRect} (p : QPoint) (h : r.isEmptyRect = true) :
    r.containsB p = false := by
  simp only [QRect.isEmptyRect, Bool.or_eq_true, decide_eq_true_eq] at h
  simp only [QRect.containsB, Bool.and_eq_false_iff, decide_eq_false_iff_not, not_lt, not_le]
  omega

theorem QRect.not_empty_of_containsB {r : QRect} {p : QPoint} (h : r.containsB p = true) :
    r.isEmptyRect = false := by
  simp only [QRect.containsB, Bool.and_eq_true, decide_eq_true_eq] at h
  simp only [QRect.isEmptyRect, Bool.or_eq_false_iff, decide_eq_false_iff_not, not_le]
  omega

theorem QRegion.containsPt_addRect (reg : QRegion) (r : QRect) (p : QPoint) :
    QRegion.containsPt (QRegion.addRect reg r) p =
      (QRegion.containsPt reg p || r.containsB p) := by
  unfold QRegion.addRect
  by_cases h : r.isEmptyRect = true
  · simp [h, QRect.containsB_of_empty p h]
  · simp only [h]
    simp [QRegion.containsPt, List.any_cons, Bool.or_comm]

theorem QRegion.containsPt_unionR (a b : QRegion) (p : QPoint) :
    QRegion.containsPt (QRegion.unionR a b) p =
      (QRegion.containsPt a p || QRegion.containsPt b p) := by
  simp [QRegion.containsPt, QRegion.unionR, List.any_append]

theorem QRegion.isEmptyR_iff (reg : QRegion) : QRegion.isEmptyR reg = true ↔ reg = [] := by
  simp [QRegion.isEmptyR, List.isEmpty_iff]

/-! ### Field-preservation lemmas for the state operations -/

theorem scheduleUpdate_windowStack (s : ScreenState) :
    (scheduleUpdate s).windowStack = s.windowStack := by
  unfold scheduleUpdate; split <;> rfl

theorem scheduleUpdate_repaintRegion (s : ScreenState) :
    (scheduleUpdate s).repaintRegion = s.repaintRegion := by
  unfold scheduleUpdate; split <;> rfl

theorem scheduleUpdate_updatePending (s : ScreenState) :
    (scheduleUpdate s).updatePending = true := by
  unfold scheduleUpdate; split <;> simp_all

theorem setDirty_windowStack (r : QRect) (s : ScreenState) :
    (setDirty r s).windowStack = s.windowStack := by
  unfold setDirty; rw [scheduleUpdate_windowStack]

theorem setDirty_updatePending (r : QRect) (s : ScreenState) :
    (setDirty r s).updatePending = true := by
  unfold setDirty; rw [scheduleUpdate_updatePending]

theorem setDirty_repaintRegion (r : QRect) (s : ScreenState) :
    (setDirty r s).repaintRegion =
      QRegion.addRect s.repaintRegion
        ((r.intersected s.geometry).translated
          (-s.geometry.topLeft.x) (-s.geometry.topLeft.y)) := by
  unfold setDirty; rw [scheduleUpdate_repaintRegion]

theorem scheduleUpdate_geometry (s : ScreenState) :
    (scheduleUpdate s).geometry = s.geometry := by
  unfold scheduleUpdate; split <;> rfl

theorem scheduleUpdate_cursor (s : ScreenState) :
    (scheduleUpdate s).cursor = s.cursor := by
  unfold scheduleUpdate; split <;> rfl

theorem setDirty_geometry (r : QRect) (s : ScreenState) :
    (setDirty r s).geometry = s.geometry := by
  unfold setDirty; rw [scheduleUpdate_geometry]

theorem setDirty_cursor (r : QRect) (s : ScreenState) :
    (setDirty r s).cursor = s.cursor := by
  unfold setDirty; rw [scheduleUpdate_cursor]

/-! ### Lemmas about the redraw algorithm -/

theorem augmentedRegion_mono (s : ScreenState) (p : QPoint)
    (h : QRegion.containsPt s.repaintRegion p = true) :
    QRegion.containsPt (augmentedRegion s) p = true := by
  unfold augmentedRegion
  split
  · split
    · rw [QRegion.containsPt_addRect, h, Bool.true_or]
    · exact h
  · exact h

theorem doRedraw_repaint_empty (s : ScreenState) :
    (doRedraw s).2.repaintRegion = QRegion.emptyR := by
  unfold doRedraw doRedrawCore
  simp only []
  split
  · next h =>
    simp only [Bool.and_eq_true] at h
    have := (QRegion.isEmptyR_iff (augmentedRegion s)).1 h.1
    simp [this, QRegion.emptyR]
  · split <;> try rfl
    split <;> rfl

theorem doRedraw_touched_mono (s : ScreenState) (p : QPoint)
    (h : QRegion.containsPt (augmentedRegion s) p = true) :
    QRegion.containsPt (doRedraw s).1 p = true := by
  unfold doRedraw doRedrawCore
  simp only []
  split
  · next hb =>
    simp only [Bool.and_eq_true] at hb
    rw [(QRegion.isEmptyR_iff _).1 hb.1] at h
    simp [QRegion.containsPt] at h
  · split
    · split
      · simp [QRegion.containsPt_unionR, h]
      · simp [QRegion.containsPt_unionR, h]
    · simp [QRegion.containsPt_unionR, h]

theorem doRedraw_cursor_not_dirty (s : ScreenState) :
    (doRedraw s).2.cursor = none ∨
      ∃ c, (doRedraw s).2.cursor = some c ∧ c.dirty = false := by
  unfold doRedraw doRedrawCore
  simp only []
  split
  · next hb =>
    simp only [Bool.and_eq_true] at hb
    rcases hb with ⟨-, hnd⟩
    cases hs : s.cursor with
    | none => left; simp [hs]
    | some c =>
      right
      refine ⟨c, by simp [hs], ?_⟩
      rw [hs] at hnd
      simpa using hnd
  · split
    · next c heq =>
      split
      · right; exact ⟨_, rfl, rfl⟩
      · next hcond =>
        right
        refine ⟨c, by simp [heq], ?_⟩
        simp only [Bool.or_eq_true, not_or] at hcond
        simpa using hcond.1
    · next heq => left; simp [heq]

theorem doRedraw_quiescent (s : ScreenState)
    (h1 : s.repaintRegion = QRegion.emptyR)
    (h2 : s.cursor = none ∨ ∃ c, s.cursor = some c ∧ c.dirty = false) :
    doRedraw s = (QRegion.emptyR, s) := by
  have hreg : augmentedRegion s = QRegion.emptyR := by
    unfold augmentedRegion
    rcases h2 with h2 | ⟨c, hc, hd⟩
    · simp [h2, h1]
    · simp [hc, hd, h1]
  have hnd : (match s.cursor with | some c => !c.dirty | none => true) = true := by
    rcases h2 with h2 | ⟨c, hc, hd⟩
    · simp [h2]
    · simp [hc, hd]
  have hstate : { s with repaintRegion := QRegion.emptyR } = s := by
    cases s
    simp_all
  unfold doRedraw doRedrawCore
  simp only [hreg, hnd, QRegion.isEmptyR, List.isEmpty_nil, Bool.and_self, if_true,
    QRegion.emptyR, hstate]
  exact congrArg (Prod.mk ([] : QRegion)) hstate

theorem doRedraw_windowStack (s : ScreenState) :
    (doRedraw s).2.windowStack = s.windowStack := by
  unfold doRedraw doRedrawCore
  simp only []
  split
  · rfl
  · split
    · split <;> rfl
    · rfl

theorem doRedraw_queuedUpdates (s : ScreenState) :
    (doRedraw s).2.queuedUpdates = s.queuedUpdates := by
  unfold doRedraw doRedrawCore
  simp only []
  split
  · rfl
  · split
    · split <;> rfl
    · rfl

theorem doRedraw_updatePending (s : ScreenState) :
    (doRedraw s).2.updatePending = s.updatePending := by
  unfold doRedraw doRedrawCore
  simp only []
  split
  · rfl
  · split
    · split <;> rfl
    · rfl

theorem scheduleUpdate_pendingBackingStores (s : ScreenState) :
    (scheduleUpdate s).pendingBackingStores = s.pendingBackingStores := by
  unfold scheduleUpdate; split <;> rfl

theorem setDirty_pendingBackingStores (r : QRect) (s : ScreenState) :
    (setDirty r s).pendingBackingStores = s.pendingBackingStores := by
  unfold setDirty; rw [scheduleUpdate_pendingBackingStores]

theorem length_le_eraseP_add_one (p : QFbBackingStore → Bool)
    (l : List QFbBackingStore) : l.length ≤ (l.eraseP p).length + 1 := by
  induction l with
  | nil => simp
  | cons a as ih =>
    rw [List.eraseP_cons]
    by_cases hp : p a = true
    · simp [hp]
    · simp only [Bool.not_eq_true] at hp
      simp [hp]
      omega

/-! ### Stack-length and index lemmas -/

theorem length_removeOneById (id : Nat) (l : List QFbWindow) :
    (removeOneById id l).length + (if containsId id l then 1 else 0) = l.length := by
  induction l with
  | nil => simp [removeOneById, containsId]
  | cons w ws ih =>
    by_cases h : (w.winId == id) = true
    · simp [removeOneById, containsId, List.any_cons, h]
    · have hb : (w.winId == id) = false := by simpa using h
      have hc : containsId id (w :: ws) = containsId id ws := by
        simp [containsId, List.any_cons, hb]
      have hr : removeOneById id (w :: ws) = w :: removeOneById id ws := by
        simp [removeOneById, hb]
      rw [hc, hr, List.length_cons, List.length_cons]
      omega

theorem length_moveToFront (i : Nat) (l : List QFbWindow) :
    (moveToFront i l).length = l.length := by
  unfold moveToFront
  split
  · next x hx =>
    have hi : i < l.length := (List.get?_eq_some.1 hx).1
    rw [List.length_cons, List.length_eraseIdx_add_one hi]
  · rfl

theorem length_moveToBack (i : Nat) (l : List QFbWindow) :
    (moveToBack i l).length = l.length := by
  unfold moveToBack
  split
  · next x hx =>
    have hi : i < l.length := (List.get?_eq_some.1 hx).1
    rw [List.length_append, List.length_singleton, List.length_eraseIdx_add_one hi]
  · rfl

theorem length_raise (w : QFbWindow) (s : ScreenState) :
    (raise w s).windowStack.length = s.windowStack.length := by
  unfold raise
  simp only []
  split
  · rfl
  · rw [setDirty_windowStack]
    exact length_moveToFront _ _

theorem length_lower (w : QFbWindow) (s : ScreenState) :
    (lower w s).windowStack.length = s.windowStack.length := by
  unfold lower
  simp only []
  split
  · rfl
  · rw [setDirty_windowStack]
    exact length_moveToBack _ _

theorem handleUpdateEvent_windowStack (s : ScreenState) :
    (handleUpdateEvent s).2.windowStack = s.windowStack := by
  unfold handleUpdateEvent
  simp [doRedraw_windowStack]

theorem length_addWindow (w : QFbWindow) (s : ScreenState) :
    ((addWindow w s).getD s).windowStack.length
      = s.windowStack.length + (if w.backingStore.isSome then 1 else 0) := by
  unfold addWindow
  split
  · next h => simp [h, setDirty_windowStack]
  · next h =>
    have hb : w.backingStore.isSome = false := by simpa using h
    simp [hb]

theorem execOps_stack_length (ops : List ScreenOp) (s : ScreenState)
    (h : ∀ w, ScreenOp.addW w ∈ ops → w.backingStore.isSome = true) :
    (execOps ops s).windowStack.length + removesCount ops s
      = s.windowStack.length + addsCount ops := by
  induction ops generalizing s with
  | nil => rfl
  | cons op rest ih =>
    have hrest := ih (execOp s op) (fun w hw => h w (List.mem_cons_of_mem _ hw))
    have hops : execOps (op :: rest) s = execOps rest (execOp s op) := rfl
    rw [hops]
    cases op with
    | dirty r =>
      have hl : (execOp s (ScreenOp.dirty r)).windowStack.length
          = s.windowStack.length := by
        show (setDirty r s).windowStack.length = _
        rw [setDirty_windowStack]
      simp only [removesCount, addsCount]
      omega
    | schedule =>
      have hl : (execOp s ScreenOp.schedule).windowStack.length
          = s.windowStack.length := by
        show (scheduleUpdate s).windowStack.length = _
        rw [scheduleUpdate_windowStack]
      simp only [removesCount, addsCount]
      omega
    | deliver =>
      have hl : (execOp s ScreenOp.deliver).windowStack.length
          = s.windowStack.length := by
        show (if 0 < s.queuedUpdates then (handleUpdateEvent s).2
              else s).windowStack.length = _
        split
        · rw [handleUpdateEvent_windowStack]
        · rfl
      simp only [removesCount, addsCount]
      omega
    | addW w' =>
      have hw' : w'.backingStore.isSome = true := h w' (List.mem_cons_self _ _)
      have hl : (execOp s (ScreenOp.addW w')).windowStack.length
          = s.windowStack.length + 1 := by
        show ((addWindow w' s).getD s).windowStack.length = _
        rw [length_addWindow, hw']
        simp
      simp only [removesCount, addsCount]
      omega
    | removeW w' =>
      have hl : (execOp s (ScreenOp.removeW w')).windowStack.length
            + (if containsId w'.winId s.windowStack then 1 else 0)
          = s.windowStack.length := by
        show (removeWindow w' s).windowStack.length + _ = _
        unfold removeWindow
        rw [setDirty_windowStack]
        exact length_removeOneById _ _
      simp only [removesCount, addsCount]
      omega
    | raiseW w' =>
      have hl : (execOp s (ScreenOp.raiseW w')).windowStack.length
          = s.windowStack.length := length_raise w' s
      simp only [removesCount, addsCount]
      omega
    | lowerW w' =>
      have hl : (execOp s (ScreenOp.lowerW w')).windowStack.length
          = s.windowStack.length := length_lower w' s
      simp only [removesCount, addsCount]
      omega

theorem indexOfId_not_contains (id : Nat) (l : List QFbWindow)
    (h : containsId id l = false) : indexOfId id l = -1 := by
  induction l with
  | nil => rfl
  | cons w ws ih =>
    simp only [containsId, List.any_cons, Bool.or_eq_false_iff] at h
    unfold indexOfId
    rw [h.1, ih h.2]
    simp

theorem indexOfId_last (id : Nat) (front : List QFbWindow) (wl : QFbWindow)
    (hne : ∀ x ∈ front, x.winId ≠ id) (hl : wl.winId = id) :
    indexOfId id (front ++ [wl]) = (front.length : Int) := by
  induction front with
  | nil =>
    unfold indexOfId
    simp [hl]
  | cons a fr ih =>
    have ha : (a.winId == id) = false := by
      simpa using hne a (List.mem_cons_self _ _)
    have hih := ih (fun x hx => hne x (List.mem_cons_of_mem _ hx))
    show indexOfId id (a :: (fr ++ [wl])) = _
    unfold indexOfId
    rw [ha, hih]
    have : ¬((fr.length : Int) = -1) := by omega
    simp [this]

/-! ### Lemmas about window contribution to a damaged rectangle -/

theorem intersected_not_empty {a b : QRect} {p : QPoint}
    (ha : a.containsB p = true) (hb : b.containsB p = true) :
    (a.intersected b).isEmptyRect = false := by
  have hae : a.isEmptyRect = false := QRect.not_empty_of_containsB ha
  have hbe : b.isEmptyRect = false := QRect.not_empty_of_containsB hb
  simp only [QRect.containsB, Bool.and_eq_true, decide_eq_true_eq] at ha hb
  unfold QRect.intersected
  rw [hae, hbe]
  simp only [Bool.or_self, Bool.false_eq_true, if_false]
  rw [if_pos (by constructor <;> omega)]
  simp only [QRect.isEmptyRect, Bool.or_eq_false_iff, decide_eq_false_iff_not, not_le]
  omega

theorem compositeWindow_skip (screenOffset : QPoint) (rect : QRect) (img : QImage)
    (w : QFbWindow)
    (hsize : ∀ bs, w.backingStore = some bs →
        bs.image.width = w.geometry.w ∧ bs.image.height = w.geometry.h)
    (hw : contributes screenOffset rect w = false) :
    compositeWindow screenOffset rect img w = img := by
  unfold compositeWindow
  by_cases hv : w.visible = true
  · unfold contributes at hw
    rw [hv, Bool.true_and, Bool.not_eq_false'] at hw
    rw [if_pos hv]
    simp only []
    cases hbs : w.backingStore with
    | none => rfl
    | some bs =>
      obtain ⟨hW, hH⟩ := hsize bs hbs
      unfold QImage.drawImageSource
      cases img with
      | mk wd ht al px =>
        simp only []
        congr 1
        funext p
        split_ifs with h1 h2
        · exfalso
          have hwr : (w.geometry.translated
              (-screenOffset.x) (-screenOffset.y)).containsB p = true := by
            simp only [QRect.containsB, QRect.translated, Bool.and_eq_true,
              decide_eq_true_eq]
            simp only [Bool.and_eq_true, decide_eq_true_eq, QRect.translated] at h2
            rw [hW, hH] at h2
            simp only [QRect.containsB, Bool.and_eq_true, decide_eq_true_eq] at h1
            omega
          have := intersected_not_empty hwr h1
          rw [hw] at this
          cases this
        · rfl
        · rfl
  · have hv' : w.visible = false := by simpa using hv
    rw [hv']
    simp

theorem paintRect_filter (screenOffset : QPoint) (stack : List QFbWindow)
    (img : QImage) (rect : QRect)
    (hsize : ∀ w ∈ stack, ∀ bs, w.backingStore = some bs →
        bs.image.width = w.geometry.w ∧ bs.image.height = w.geometry.h) :
    paintRect screenOffset stack img rect
      = paintRect screenOffset (stack.filter (contributes screenOffset rect)) img rect := by
  unfold paintRect
  simp only []
  rw [List.foldl_reverse, List.foldl_reverse]
  revert hsize
  induction stack with
  | nil => intro _; rfl
  | cons w ws ih =>
    intro hsize
    have hws := ih (fun w' hw' bs hbs => hsize w' (List.mem_cons_of_mem _ hw') bs hbs)
    rw [List.filter_cons]
    by_cases hp : contributes screenOffset rect w = true
    · rw [if_pos hp]
      simp only [List.foldr_cons]
      rw [hws]
    · rw [if_neg hp]
      simp only [List.foldr_cons]
      rw [compositeWindow_skip _ _ _ _ (hsize w (List.mem_cons_self _ _))
        (by simpa using hp)]
      exact hws

/-! ### Preservation of the scheduling invariant -/

theorem updateInv_scheduleUpdate (s : ScreenState) (h : updateInv s) :
    updateInv (scheduleUpdate s) := by
  unfold scheduleUpdate
  split
  · exact h
  · next hp =>
    unfold updateInv at h ⊢
    simp only [Bool.not_eq_true] at hp
    simp [hp] at h
    simp [h]

theorem updateInv_setDirty (r : QRect) (s : ScreenState) (h : updateInv s) :
    updateInv (setDirty r s) := by
  unfold setDirty
  exact updateInv_scheduleUpdate _ h

theorem handleUpdateEvent_queuedUpdates (s : ScreenState) :
    (handleUpdateEvent s).2.queuedUpdates = s.queuedUpdates - 1 := by
  unfold handleUpdateEvent
  simp [doRedraw_queuedUpdates]

theorem updateInv_execOp (s : ScreenState) (op : ScreenOp) (h : updateInv s) :
    updateInv (execOp s op) := by
  cases op with
  | dirty r => exact updateInv_setDirty r s h
  | schedule => exact updateInv_scheduleUpdate s h
  | deliver =>
    show updateInv (if 0 < s.queuedUpdates then (handleUpdateEvent s).2 else s)
    split
    · next hq =>
      unfold updateInv
      rw [handleUpdateEvent_queuedUpdates]
      have hpend : (handleUpdateEvent s).2.updatePending = false := rfl
      rw [hpend]
      unfold updateInv at h
      cases hp : s.updatePending <;> simp [hp] at h ⊢ <;> omega
    · exact h
  | addW w =>
    show updateInv ((addWindow w s).getD s)
    unfold addWindow
    split
    · exact updateInv_setDirty _ _ h
    · exact h
  | removeW w =>
    show updateInv (removeWindow w s)
    exact updateInv_setDirty _ _ h
  | raiseW w =>
    show updateInv (raise w s)
    unfold raise
    simp only []
    split
    · exact h
    · exact updateInv_setDirty _ _ h
  | lowerW w =>
    show updateInv (lower w s)
    unfold lower
    simp only []
    split
    · exact h
    · exact updateInv_setDirty _ _ h

theorem updateInv_execOps (ops : List ScreenOp) (s : ScreenState) (h : updateInv s) :
    updateInv (execOps ops s) := by
  induction ops generalizing s with
  | nil => exact h
  | cons op rest ih => exact ih (execOp s op) (updateInv_execOp s op h)

/-! ### The claims -/

/-- C2: `setDirty(r)` replaces the damage region by its union with `r`
intersected with the screen geometry and translated to local coordinates,
and requests a redraw; a rectangle fully outside the geometry leaves the
damage region unchanged. -/
theorem C2_setDirty_accumulates (s : ScreenState) (r : QRect) :
    (∀ p : QPoint,
        QRegion.containsPt (setDirty r s).repaintRegion p =
          (QRegion.containsPt s.repaintRegion p ||
            QRect.containsB ((r.intersected s.geometry).translated
              (-s.geometry.topLeft.x) (-s.geometry.topLeft.y)) p))
    ∧ (setDirty r s).updatePending = true
    ∧ ((r.intersected s.geometry).isEmptyRect = true →
        (setDirty r s).repaintRegion = s.repaintRegion) := by
  refine ⟨fun p => ?_, setDirty_updatePending r s, fun h => ?_⟩
  · rw [setDirty_repaintRegion, QRegion.containsPt_addRect]
  · rw [setDirty_repaintRegion]
    unfold QRegion.addRect
    have he : ((r.intersected s.geometry).translated
        (-s.geometry.topLeft.x) (-s.geometry.topLeft.y)).isEmptyRect = true := h
    simp [he]

/-- Witness for C2: on the concrete quiescent screen, damaging `(0,0,10,10)`
adds exactly that rectangle's points and raises the pending flag, while the
fully off-screen rectangle `(200,200,10,10)` changes nothing. -/
theorem C2_setDirty_accumulates_witness :
    QRegion.containsPt (setDirty ⟨0, 0, 10, 10⟩ probeState).repaintRegion ⟨3, 4⟩ =
      (QRegion.containsPt probeState.repaintRegion ⟨3, 4⟩ ||
        QRect.containsB (((⟨0, 0, 10, 10⟩ : QRect).intersected probeState.geometry).translated
          (-probeState.geometry.topLeft.x) (-probeState.geometry.topLeft.y)) ⟨3, 4⟩)
    ∧ (setDirty ⟨0, 0, 10, 10⟩ probeState).updatePending = true
    ∧ (setDirty ⟨200, 200, 10, 10⟩ probeState).repaintRegion = probeState.repaintRegion := by
  refine ⟨(C2_setDirty_accumulates probeState ⟨0, 0, 10, 10⟩).1 ⟨3, 4⟩,
    (C2_setDirty_accumulates probeState ⟨0, 0, 10, 10⟩).2.1,
    (C2_setDirty_accumulates probeState ⟨200, 200, 10, 10⟩).2.2 (by decide)⟩

/-- C3: `doRedraw` returns a touched region containing every point of the
damage region it consumed, a `setDirty` followed by a redraw touches every
point of the rectangle clipped to the screen, and afterwards the damage
region is empty. -/
theorem C3_redraw_consumes_damage (s : ScreenState) (r : QRect) (p : QPoint) :
    (doRedraw s).2.repaintRegion = QRegion.emptyR
    ∧ (QRegion.containsPt s.repaintRegion p = true →
        QRegion.containsPt (doRedraw s).1 p = true)
    ∧ (QRect.containsB ((r.intersected s.geometry).translated
          (-s.geometry.topLeft.x) (-s.geometry.topLeft.y)) p = true →
        QRegion.containsPt (doRedraw (setDirty r s)).1 p = true) := by
  refine ⟨doRedraw_repaint_empty s,
    fun h => doRedraw_touched_mono s p (augmentedRegion_mono s p h),
    fun h => ?_⟩
  apply doRedraw_touched_mono
  apply augmentedRegion_mono
  rw [setDirty_repaintRegion, QRegion.containsPt_addRect, h, Bool.or_true]

/-- Witness for C3: after damaging `(0,0,10,10)` on the concrete screen,
the redraw touches the point `(3,4)` of that rectangle, and the damage
region is empty afterwards. -/
theorem C3_redraw_consumes_damage_witness :
    (doRedraw probeState).2.repaintRegion = QRegion.emptyR
    ∧ QRegion.containsPt (doRedraw (setDirty ⟨0, 0, 10, 10⟩ probeState)).1 ⟨3, 4⟩ = true :=
  ⟨(C3_redraw_consumes_damage probeState ⟨0, 0, 10, 10⟩ ⟨3, 4⟩).1,
   (C3_redraw_consumes_damage probeState ⟨0, 0, 10, 10⟩ ⟨3, 4⟩).2.2 (by decide)⟩

/-- C4: with an empty damage region and an absent or clean cursor,
`doRedraw` returns an empty touched region and leaves the whole state — in
particular the composited output image — unchanged. -/
theorem C4_early_exit (s : ScreenState)
    (h1 : s.repaintRegion = QRegion.emptyR)
    (h2 : s.cursor = none ∨ ∃ c, s.cursor = some c ∧ c.dirty = false) :
    doRedraw s = (QRegion.emptyR, s) :=
  doRedraw_quiescent s h1 h2

/-- Witness for C4: the concrete quiescent screen redraws into an empty
touched region with an unchanged state. -/
theorem C4_early_exit_witness : doRedraw probeState = (QRegion.emptyR, probeState) :=
  C4_early_exit probeState rfl (Or.inl rfl)

/-- C5: when a cursor exists, is dirty and is on-screen, its previous paint
rectangle is united into the damage region consumed by `doRedraw`, and the
redraw's touched region covers that rectangle. -/
theorem C5_cursor_vacated_repainted (s : ScreenState) (c : QFbCursor) (p : QPoint)
    (hc : s.cursor = some c) (hd : c.dirty = true) (ho : c.onScreen = true)
    (hp : c.dirtyRect.containsB p = true) :
    QRegion.containsPt (augmentedRegion s) p = true
    ∧ QRegion.containsPt (doRedraw s).1 p = true := by
  have h1 : QRegion.containsPt (augmentedRegion s) p = true := by
    unfold augmentedRegion
    simp [hc, hd, ho, QRegion.containsPt_addRect, hp]
  exact ⟨h1, doRedraw_touched_mono s p h1⟩

/-- Witness for C5: the concrete dirty on-screen cursor's previous
rectangle contains `(1,1)`, which is consumed and touched by the redraw. -/
theorem C5_cursor_vacated_repainted_witness :
    QRegion.containsPt (augmentedRegion probeCursorState) ⟨1, 1⟩ = true
    ∧ QRegion.containsPt (doRedraw probeCursorState).1 ⟨1, 1⟩ = true :=
  C5_cursor_vacated_repainted probeCursorState probeCursor ⟨1, 1⟩ rfl rfl rfl (by decide)

/-- C6: the cursor is composited exactly when a cursor exists and is dirty
or the damage region intersects its last-painted rectangle; when it is
composited, the touched region covers the rectangle it painted. -/
theorem C6_cursor_composited_iff (s : ScreenState) :
    ((doRedrawCore s).2.2 = true ↔
      ∃ c, s.cursor = some c ∧
        (c.dirty = true ∨
          QRegion.intersectsRect (augmentedRegion s) c.lastPainted = true))
    ∧ (∀ c p, s.cursor = some c → (doRedrawCore s).2.2 = true →
        c.drawRect.containsB p = true →
        QRegion.containsPt (doRedrawCore s).1 p = true) := by
  unfold doRedrawCore
  simp only []
  split
  · next hb =>
    simp only [Bool.and_eq_true] at hb
    rcases hb with ⟨hemp, hnd⟩
    have hr : augmentedRegion s = [] := (QRegion.isEmptyR_iff _).1 hemp
    constructor
    · constructor
      · intro h; cases h
      · rintro ⟨c, hc, hd | hi⟩
        · rw [hc] at hnd; simp [hd] at hnd
        · rw [hr] at hi; simp [QRegion.intersectsRect] at hi
    · intro c p _ h; cases h
  · split
    · next c heq =>
      split
      · next hcond =>
        constructor
        · constructor
          · intro _
            exact ⟨c, heq, by simpa using hcond⟩
          · intro _; rfl
        · intro c' p hc' _ hp
          rw [heq] at hc'
          cases hc'
          rw [QRegion.containsPt_unionR, QRegion.containsPt_addRect]
          simp [drawCursor, hp]
      · next hcond =>
        constructor
        · constructor
          · intro h; cases h
          · rintro ⟨c', hc', hd⟩
            rw [heq] at hc'
            cases hc'
            simp only [Bool.or_eq_true] at hcond
            rcases hd with hd | hd
            · exact absurd (Or.inl hd) hcond
            · exact absurd (Or.inr hd) hcond
        · intro c' p hc' h; cases h
    · next heq =>
      constructor
      · constructor
        · intro h; cases h
        · rintro ⟨c, hc, -⟩
          rw [heq] at hc
          cases hc
      · intro c p hc
        rw [heq] at hc
        cases hc

/-- Witness for C6: the concrete dirty cursor is composited and the touched
region covers the point `(3,3)` of its painted rectangle. -/
theorem C6_cursor_composited_iff_witness :
    (doRedrawCore probeCursorState).2.2 = true
    ∧ QRegion.containsPt (doRedrawCore probeCursorState).1 ⟨3, 3⟩ = true := by
  have h := C6_cursor_composited_iff probeCursorState
  have hdrawn : (doRedrawCore probeCursorState).2.2 = true :=
    h.1.mpr ⟨probeCursor, rfl, Or.inl rfl⟩
  exact ⟨hdrawn, h.2 probeCursor ⟨3, 3⟩ rfl hdrawn (by decide)⟩

/-- C8: a second redraw immediately after a redraw, with nothing happening
in between, produces an empty touched region. -/
theorem C8_second_redraw_empty (s : ScreenState) :
    (doRedraw (doRedraw s).2).1 = QRegion.emptyR := by
  have h := doRedraw_quiescent (doRedraw s).2 (doRedraw_repaint_empty s)
    (doRedraw_cursor_not_dirty s)
  rw [h]

/-- C9: under the scheduling invariant — the number of queued update events
is one exactly when an update is pending — every operation sequence keeps
the invariant, so at most one update notification is ever queued;
`scheduleUpdate` is a no-op while an update is pending; and executing a
queued update clears the pending flag unconditionally, whatever the
redraw's touched region was. -/
theorem C9_coalesced_scheduling (ops : List ScreenOp) (s : ScreenState)
    (h : updateInv s) :
    updateInv (execOps ops s)
    ∧ (execOps ops s).queuedUpdates ≤ 1
    ∧ (∀ t : ScreenState, t.updatePending = true → scheduleUpdate t = t)
    ∧ (∀ t : ScreenState, (handleUpdateEvent t).2.updatePending = false) := by
  have hinv := updateInv_execOps ops s h
  refine ⟨hinv, ?_, fun t ht => ?_, fun t => rfl⟩
  · unfold updateInv at hinv
    rw [hinv]
    split <;> omega
  · unfold scheduleUpdate
    rw [ht]
    rfl

/-- Witness for C9: two damage notifications, an extra explicit schedule,
and one event delivery on the concrete screen keep the invariant and leave
at most one queued update. -/
theorem C9_coalesced_scheduling_witness :
    updateInv (execOps [ScreenOp.dirty ⟨0, 0, 10, 10⟩, ScreenOp.dirty ⟨5, 5, 10, 10⟩,
        ScreenOp.schedule, ScreenOp.deliver] probeState)
    ∧ (execOps [ScreenOp.dirty ⟨0, 0, 10, 10⟩, ScreenOp.dirty ⟨5, 5, 10, 10⟩,
        ScreenOp.schedule, ScreenOp.deliver] probeState).queuedUpdates ≤ 1 := by
  have h := C9_coalesced_scheduling [ScreenOp.dirty ⟨0, 0, 10, 10⟩,
    ScreenOp.dirty ⟨5, 5, 10, 10⟩, ScreenOp.schedule, ScreenOp.deliver] probeState
    (by unfold updateInv probeState; simp)
  exact ⟨h.1, h.2.1⟩

/-- C7: over any operation sequence the stack size changes by the number
of `addWindow`s minus the number of successful `removeWindow`s, and
`raise` on a topmost or absent window, like `lower` on a bottommost or
absent window, leaves the state unchanged. -/
theorem C7_stack_algebra (ops : List ScreenOp) (s : ScreenState) (w : QFbWindow)
    (front : List QFbWindow) (wl : QFbWindow) :
    ((∀ w', ScreenOp.addW w' ∈ ops → w'.backingStore.isSome = true) →
      (execOps ops s).windowStack.length + removesCount ops s
        = s.windowStack.length + addsCount ops)
    ∧ (s.windowStack.head? = some wl → wl.winId = w.winId → raise w s = s)
    ∧ (containsId w.winId s.windowStack = false → raise w s = s)
    ∧ (s.windowStack = front ++ [wl] → wl.winId = w.winId →
        (∀ x ∈ front, x.winId ≠ w.winId) → lower w s = s)
    ∧ (containsId w.winId s.windowStack = false → lower w s = s) := by
  refine ⟨fun h => execOps_stack_length ops s h, ?_, ?_, ?_, ?_⟩
  · intro hh hid
    cases hws : s.windowStack with
    | nil => rw [hws] at hh; simp at hh
    | cons a rest =>
      rw [hws, List.head?_cons] at hh
      injection hh with hh
      have hid' : a.winId = w.winId := by rw [hh]; exact hid
      have hidx : indexOfId w.winId s.windowStack = 0 := by
        rw [hws]
        unfold indexOfId
        simp [hid']
      unfold raise
      simp only []
      rw [hidx]
      simp
  · intro h
    unfold raise
    simp only []
    rw [indexOfId_not_contains _ _ h]
    simp
  · intro hstack hid hne
    unfold lower
    simp only []
    rw [hstack, indexOfId_last w.winId front wl hne hid]
    rw [if_pos]
    right
    rw [List.length_append, List.length_singleton]
    push_cast
    omega
  · intro h
    unfold lower
    simp only []
    rw [indexOfId_not_contains _ _ h]
    simp

/-- Witness for C7: adding a third window and removing the topmost one on
the two-window screen yields stack size 2 = 2 + 1 − 1; raising the topmost
window and lowering the bottommost one are no-ops. -/
theorem C7_stack_algebra_witness :
    (execOps [ScreenOp.addW (probeWindow 3 ⟨20, 20, 10, 10⟩),
        ScreenOp.removeW (probeWindow 1 ⟨0, 0, 10, 10⟩)] stackState).windowStack.length
      + removesCount [ScreenOp.addW (probeWindow 3 ⟨20, 20, 10, 10⟩),
          ScreenOp.removeW (probeWindow 1 ⟨0, 0, 10, 10⟩)] stackState
      = stackState.windowStack.length
        + addsCount [ScreenOp.addW (probeWindow 3 ⟨20, 20, 10, 10⟩),
            ScreenOp.removeW (probeWindow 1 ⟨0, 0, 10, 10⟩)]
    ∧ raise (probeWindow 1 ⟨0, 0, 10, 10⟩) stackState = stackState
    ∧ lower (probeWindow 2 ⟨5, 5, 10, 10⟩) stackState = stackState := by
  have h := C7_stack_algebra
    [ScreenOp.addW (probeWindow 3 ⟨20, 20, 10, 10⟩),
     ScreenOp.removeW (probeWindow 1 ⟨0, 0, 10, 10⟩)]
    stackState (probeWindow 1 ⟨0, 0, 10, 10⟩)
    [probeWindow 1 ⟨0, 0, 10, 10⟩] (probeWindow 1 ⟨0, 0, 10, 10⟩)
  have h' := C7_stack_algebra ([] : List ScreenOp) stackState
    (probeWindow 2 ⟨5, 5, 10, 10⟩)
    [probeWindow 1 ⟨0, 0, 10, 10⟩] (probeWindow 2 ⟨5, 5, 10, 10⟩)
  refine ⟨h.1 ?_, h.2.1 rfl rfl, h'.2.2.2.1 rfl rfl ?_⟩
  · intro w' hw'
    rw [List.mem_cons, List.mem_singleton] at hw'
    rcases hw' with hw' | hw'
    · cases hw'
      rfl
    · cases hw'
  · intro x hx
    rw [List.mem_singleton] at hx
    subst hx
    decide

/-- C10: `addWindow` succeeds exactly when the window already has a backing
store (the `Q_ASSERT` precondition), and its pending-store reconciliation
only replaces that store: the prepended window keeps a store that is either
its own or the first matching pending one, and at most one entry — a
matching one — is removed from the pending list, which otherwise keeps its
order. -/
theorem C10_addWindow_assert_reconcile (w : QFbWindow) (s : ScreenState) :
    ((addWindow w s).isSome = w.backingStore.isSome)
    ∧ (∀ s', addWindow w s = some s' →
        s'.pendingBackingStores.Sublist s.pendingBackingStores
        ∧ s.pendingBackingStores.length ≤ s'.pendingBackingStores.length + 1
        ∧ ∃ w', s'.windowStack = w' :: s.windowStack
            ∧ w'.winId = w.winId
            ∧ w'.backingStore.isSome = true
            ∧ (w'.backingStore = w.backingStore
               ∨ ∃ bs, bs ∈ s.pendingBackingStores ∧ bs.storeWindowId = w.winId
                   ∧ w'.backingStore = some bs)) := by
  constructor
  · unfold addWindow
    split
    · next h => simp [h]
    · next h =>
      have hb : w.backingStore.isSome = false := by simpa using h
      simp [hb]
  · intro s' hs'
    unfold addWindow at hs'
    split at hs'
    · next h =>
      injection hs' with hs'
      subst hs'
      refine ⟨?_, ?_, ?_⟩
      · rw [setDirty_pendingBackingStores]
        exact List.eraseP_sublist _
      · rw [setDirty_pendingBackingStores]
        exact length_le_eraseP_add_one _ _
      · rw [setDirty_windowStack]
        cases hf : s.pendingBackingStores.find? (fun bs => bs.storeWindowId == w.winId) with
        | none =>
          exact ⟨w, rfl, rfl, h, Or.inl rfl⟩
        | some bs =>
          refine ⟨{ w with backingStore := some bs }, rfl, rfl, rfl, Or.inr ?_⟩
          refine ⟨bs, List.mem_of_find?_eq_some hf, ?_, rfl⟩
          have := List.find?_some hf
          simpa using this
    · cases hs'

/-- Witness for C10: adding a window with id 3 and its own store to the
screen whose pending list holds a store for id 3 succeeds, prepends a
window that carries a backing store, and shrinks the pending list by at
most one entry. -/
theorem C10_addWindow_assert_reconcile_witness :
    ((addWindow (probeWindow 3 ⟨0, 0, 4, 4⟩) pendState).isSome
      = (probeWindow 3 ⟨0, 0, 4, 4⟩).backingStore.isSome)
    ∧ ((addWindow (probeWindow 3 ⟨0, 0, 4, 4⟩) pendState).getD
          pendState).pendingBackingStores.Sublist pendState.pendingBackingStores
    ∧ pendState.pendingBackingStores.length
        ≤ ((addWindow (probeWindow 3 ⟨0, 0, 4, 4⟩) pendState).getD
            pendState).pendingBackingStores.length + 1
    ∧ ∃ w', ((addWindow (probeWindow 3 ⟨0, 0, 4, 4⟩) pendState).getD
          pendState).windowStack = w' :: pendState.windowStack
        ∧ w'.winId = (probeWindow 3 ⟨0, 0, 4, 4⟩).winId
        ∧ w'.backingStore.isSome = true
        ∧ (w'.backingStore = (probeWindow 3 ⟨0, 0, 4, 4⟩).backingStore
           ∨ ∃ bs, bs ∈ pendState.pendingBackingStores
               ∧ bs.storeWindowId = (probeWindow 3 ⟨0, 0, 4, 4⟩).winId
               ∧ w'.backingStore = some bs) := by
  have h := C10_addWindow_assert_reconcile (probeWindow 3 ⟨0, 0, 4, 4⟩) pendState
  have h2 := h.2 ((addWindow (probeWindow 3 ⟨0, 0, 4, 4⟩) pendState).getD pendState) rfl
  exact ⟨h.1, h2.1, h2.2.1, h2.2.2⟩

/-- C1: when painting a damaged rectangle, only visible windows whose
geometry meets the rectangle contribute pixels (provided each backing
image has its window's size); and in the concrete scenario — screen
`(0,0,100,100)`, one visible window at `(10,10,50,50)` whose backing store
is solid color `c`, full-screen `setDirty` followed by a redraw — the
output image holds `c` on `[10,60)×[10,60)` and elsewhere the background:
transparent when the output image has an alpha channel, otherwise opaque
black. -/
theorem C1_background_then_windows (alpha : Bool) (base : QPoint → Color) (c : Color)
    (x y : Int) (screenOffset : QPoint) (rect : QRect) (img : QImage)
    (stack : List QFbWindow)
    (hx0 : 0 ≤ x) (hx1 : x < 100) (hy0 : 0 ≤ y) (hy1 : y < 100) :
    ((∀ w ∈ stack, ∀ bs, w.backingStore = some bs →
        bs.image.width = w.geometry.w ∧ bs.image.height = w.geometry.h) →
      paintRect screenOffset stack img rect
        = paintRect screenOffset (stack.filter (contributes screenOffset rect)) img rect)
    ∧ (doRedraw (setDirty ⟨0, 0, 100, 100⟩
          (scenarioState alpha base c))).2.screenImage.pixel ⟨x, y⟩
        = if 10 ≤ x ∧ x < 60 ∧ 10 ≤ y ∧ y < 60 then c
          else if alpha then Color.transparent else Color.black := by
  refine ⟨fun hsize => paintRect_filter screenOffset stack img rect hsize, ?_⟩
  have h2 : (doRedraw (setDirty ⟨0, 0, 100, 100⟩ (scenarioState alpha base c))).2.screenImage
      = QImage.drawImageSource
          (QImage.fillRectSource ⟨100, 100, alpha, base⟩ ⟨0, 0, 100, 100⟩
            (if alpha then Color.transparent else Color.black))
          ⟨0, 0, 100, 100⟩ (solidImage false 50 50 c) ⟨-10, -10⟩ := rfl
  rw [h2]
  simp only [QImage.drawImageSource, QImage.fillRectSource, solidImage, QRect.containsB]
  split_ifs <;> simp_all

/-- Witness for C1: with an opaque output image, solid window color
`rgb 1 2 3` and black initial pixels, the point `(30,30)` inside the window
shows the window color while `(30,5)` outside it shows the black
background; the one-window stack with matching backing-image size is left
unchanged by the contribution filter. -/
theorem C1_background_then_windows_witness :
    ((doRedraw (setDirty ⟨0, 0, 100, 100⟩
        (scenarioState false (fun _ => Color.black)
          (Color.rgb 1 2 3)))).2.screenImage.pixel ⟨30, 30⟩
      = if (10:Int) ≤ 30 ∧ (30:Int) < 60 ∧ (10:Int) ≤ 30 ∧ (30:Int) < 60 then Color.rgb 1 2 3
        else if false then Color.transparent else Color.black)
    ∧ ((doRedraw (setDirty ⟨0, 0, 100, 100⟩
        (scenarioState false (fun _ => Color.black)
          (Color.rgb 1 2 3)))).2.screenImage.pixel ⟨30, 5⟩
      = if (10:Int) ≤ 30 ∧ (30:Int) < 60 ∧ (10:Int) ≤ 5 ∧ (5:Int) < 60 then Color.rgb 1 2 3
        else if false then Color.transparent else Color.black)
    ∧ paintRect ⟨0, 0⟩ [probeWindow 1 ⟨0, 0, 100, 100⟩] blackImage ⟨0, 0, 20, 20⟩
      = paintRect ⟨0, 0⟩
          ([probeWindow 1 ⟨0, 0, 100, 100⟩].filter (contributes ⟨0, 0⟩ ⟨0, 0, 20, 20⟩))
          blackImage ⟨0, 0, 20, 20⟩ := by
  refine ⟨(C1_background_then_windows false (fun _ => Color.black) (Color.rgb 1 2 3)
      30 30 ⟨0, 0⟩ ⟨0, 0, 20, 20⟩ blackImage [] (by decide) (by decide) (by decide)
      (by decide)).2,
    (C1_background_then_windows false (fun _ => Color.black) (Color.rgb 1 2 3)
      30 5 ⟨0, 0⟩ ⟨0, 0, 20, 20⟩ blackImage [] (by decide) (by decide) (by decide)
      (by decide)).2,
    (C1_background_then_windows false (fun _ => Color.black) (Color.rgb 1 2 3)
      30 30 ⟨0, 0⟩ ⟨0, 0, 20, 20⟩ blackImage [probeWindow 1 ⟨0, 0, 100, 100⟩]
      (by decide) (by decide) (by decide) (by decide)).1 ?_⟩
  intro w' hw' bs hbs
  rw [List.mem_singleton] at hw'
  subst hw'
  have hbs' : some (probeStore 1) = some bs := hbs
  injection hbs' with hb
  subst hb
  exact ⟨rfl, rfl⟩

end QFb
